import Mathlib

/-!
# Verification of the questiongo data-safe subsystem

This file gives a shallow embedding, in Lean 4, of the answer-persistence
("data safe") subsystem of the questiongo questionnaire server:

* the `fileappend` backend adapter (file `datasafe/fileappend.go`): the
  escaping codec, the `GetData` file parser, and the `fileappendWorker`
  control loop, modelled as an explicit state machine whose events carry
  the outcomes of the file-system operations they trigger;
* the `sqlite` backend adapter (`datasafe/sqlite.go`): the `sqliteWorker`
  control loop and the `GetData`/`SELECT` read path, over a modelled
  database table (a list of rows in autoincrement order; the transaction
  semantics of the engine — commit applies all inserts, rollback discards
  them — is modelled, since the engine itself is an external library);
* the `MySQL` backend adapter (`datasafe/mysql.go`, synchronous variant):
  `SaveData` with its validation guards and its per-call transaction, and
  the `GetData` guards, with the database operations driven by an explicit
  outcome oracle.

Strings are Go (UTF-8) strings; payloads handled character-wise by the file
adapter are modelled as `List Char` (Go iterates runes in the relevant
`strings.ReplaceAll` / `strings.Split` calls, whose patterns are single
runes). `len` of a Go string is its UTF-8 byte count, `String.utf8ByteSize`.
-/

/-- The newline rune used by the file adapter as record separator. -/
def nlChar : Char := '\n'

/-- The private-use sentinel codepoint U+F0015 (the rune written `"󰀕"` in
`fileappend.go`) that the file adapter substitutes for newlines. -/
def faSentinel : Char := Char.ofNat 0xF0015

/-- Go `strings.ReplaceAll s (String.singleton pat) rep` for a single-rune
pattern `pat`, character-wise. -/
def replaceAllChar (s : List Char) (pat : Char) (rep : List Char) : List Char :=
  match s with
  | [] => []
  | c :: cs => (if c = pat then rep else [c]) ++ replaceAllChar cs pat rep

/-- The write-side escaping of `fileappendWorker`:
`s := strings.ReplaceAll(data, "󰀕", "")` then
`s = strings.ReplaceAll(s, "\n", "󰀕")`. -/
def escapeLine (d : List Char) : List Char :=
  replaceAllChar (replaceAllChar d faSentinel []) nlChar [faSentinel]

/-- The read-side unescaping of `fileAppend.GetData`:
`strings.ReplaceAll(split[i], "󰀕", "\n")`. -/
def unescapeLine (l : List Char) : List Char :=
  replaceAllChar l faSentinel [nlChar]

/-- Removal of the sentinel codepoint (the first `ReplaceAll` of the write
path, in isolation). -/
def stripSentinel (d : List Char) : List Char :=
  replaceAllChar d faSentinel []

/-- Go `strings.Split(s, "\n")`: splits at every newline; the empty string
yields one empty chunk. -/
def splitNl : List Char → List (List Char)
  | [] => [[]]
  | c :: cs =>
      match splitNl cs with
      | [] => [[]]
      | h :: t => if c = nlChar then [] :: h :: t else (c :: h) :: t

/-- Go `strings.TrimSuffix(s, "\n")`: drops one trailing newline if present. -/
def trimSuffixNl (s : List Char) : List Char :=
  if s.getLast? = some nlChar then s.dropLast else s

/-- The body of `fileAppend.GetData` after a successful `os.ReadFile`:
trim one trailing newline, split on newlines, unescape each line. -/
def parseContent (b : List Char) : List (List Char) :=
  (splitNl (trimSuffixNl b)).map unescapeLine

/-- `fileAppend.GetData` for one key, as a function of the backing file:
`none` models `os.IsNotExist` (returns the empty slice and no error);
`some b` models a successful read of content `b`. -/
def readKey (co : Option (List Char)) : List (List Char) :=
  match co with
  | none => []
  | some b => parseContent b

/-- Concatenation of newline-terminated lines, the canonical form of a file
written by the append worker. -/
def joinLines : List (List Char) → List Char
  | [] => []
  | l :: ls => l ++ nlChar :: joinLines ls

/-- A backing file (or its absence) represents a list of raw stored lines:
either the file does not exist and the list is empty, or the file is the
newline-terminated concatenation of the (newline-free, at least one) lines. -/
def repLines (co : Option (List Char)) (ls : List (List Char)) : Prop :=
  (co = none ∧ ls = []) ∨
  (co = some (joinLines ls) ∧ ls ≠ [] ∧ ∀ l ∈ ls, nlChar ∉ l)

/-- The `fileAppendResult` struct of `fileappend.go`. -/
structure fileAppendResult where
  questionnaireID : String
  questionID : String
  data : List Char
deriving DecidableEq

/-- Lexicographic strict order on rune sequences. On UTF-8 strings Go's
bytewise `<` coincides with this codepoint-lexicographic order. -/
def charListLess : List Char → List Char → Bool
  | [], [] => false
  | [], _ :: _ => true
  | _ :: _, [] => false
  | a :: as, b :: bs =>
      if a < b then true else if b < a then false else charListLess as bs

/-- Go `<` on strings (bytewise lexicographic comparison). -/
def goStringLess (a b : String) : Bool :=
  charListLess a.data b.data

/-- The `Less` method of `fileAppendResultBuffer`: lexicographic on
`(questionnaireID, questionID)`. -/
def fileAppendLess (a b : fileAppendResult) : Bool :=
  if goStringLess a.questionnaireID b.questionnaireID then true
  else if goStringLess b.questionnaireID a.questionnaireID then false
  else goStringLess a.questionID b.questionID

/-- Stable insertion w.r.t. `fileAppendLess`: `x` is placed before the first
element not strictly below it. -/
def sortStableInsert (x : fileAppendResult) :
    List fileAppendResult → List fileAppendResult
  | [] => [x]
  | y :: ys => if fileAppendLess y x then y :: sortStableInsert x ys else x :: y :: ys

/-- Model of `sort.Stable(buffer)` in `fileappendWorker`. A stable sort is
functionally unique given its comparator, so this stable insertion sort
computes exactly the list `sort.Stable` produces for `fileAppendLess`. -/
def sortStable (l : List fileAppendResult) : List fileAppendResult :=
  l.foldr sortStableInsert []

/-- Does a record belong to the `(questionnaireID, questionID)` key? -/
def hasKey (qn q : String) (r : fileAppendResult) : Bool :=
  r.questionnaireID == qn && r.questionID == q

/-- The modelled file tree: the file `filepath.Join(path, qn, q)` is keyed by
the triple `(path, qn, q)`; `none` means the file does not exist. -/
def FileTree : Type := String × String × String → Option (List Char)

/-- The empty file tree (fresh data directory). -/
def FileTree.empty : FileTree := fun _ => none

/-- One iteration of the write loop of `fileappendWorker` for record `r`,
success case: open `filepath.Join(path, qn, q)` with `O_APPEND|O_CREATE` and
append the escaped payload followed by a newline. -/
def writeRecord (path : String) (fs : FileTree) (r : fileAppendResult) : FileTree :=
  fun k =>
    if k = (path, r.questionnaireID, r.questionID) then
      some ((fs k).getD [] ++ escapeLine r.data ++ [nlChar])
    else fs k

/-- The interrupted write in which `f.Write([]byte(s))` succeeded but the
following `f.Write([]byte("\n"))` failed: the escaped payload is appended
without its terminating newline (the file was created by `O_CREATE` if
absent). -/
def writeRecordNoNl (path : String) (fs : FileTree) (r : fileAppendResult) : FileTree :=
  fun k =>
    if k = (path, r.questionnaireID, r.questionID) then
      some ((fs k).getD [] ++ escapeLine r.data)
    else fs k

/-- The effect of `os.OpenFile(path, O_APPEND|O_CREATE|O_WRONLY, ...)` when
the subsequent payload write fails: the file now exists (created empty if it
was absent) but nothing was appended to it. -/
def touchFile (path : String) (fs : FileTree) (r : fileAppendResult) : FileTree :=
  fun k =>
    if k = (path, r.questionnaireID, r.questionID) then
      some ((fs k).getD [])
    else fs k

/-- Outcome of the file-system operations performed for one record of a
flush batch (`os.MkdirAll`, `os.OpenFile`, the two `f.Write` calls). -/
inductive FAWriteOutcome
  | ok
  | mkdirFail
  | openFail
  | writePayloadFail
  | writeNewlineFail
deriving DecidableEq

/-- The flush loop of `fileappendWorker` over the (sorted) buffer, driven by
a list of per-record outcomes (missing entries default to `ok`). A failed
`os.MkdirAll` returns from the *outer* closure: the flush is aborted and the
remaining records are not written. The `return` after a failed `OpenFile`
or `f.Write`, in contrast, exits only the inner per-record closure: the
record is skipped (for `OpenFile` with no effect; for a failed payload
write with the file created by `O_CREATE`; for a failed newline write with
the payload appended unterminated) and the loop continues with the
remaining records. Every failure sets `running = false`.
The result is `(tree, completed, failed)`: `completed` is false exactly
when `MkdirAll` aborted the loop (so `buffer = make(...)` is not reached),
`failed` is true when any operation failed. -/
def flushRecords (path : String) (fs : FileTree) :
    List fileAppendResult → List FAWriteOutcome → FileTree × Bool × Bool
  | [], _ => (fs, true, false)
  | r :: rs, os =>
      match os.headD .ok with
      | .ok => flushRecords path (writeRecord path fs r) rs os.tail
      | .mkdirFail => (fs, false, true)
      | .openFail =>
          let res := flushRecords path fs rs os.tail
          (res.1, res.2.1, true)
      | .writePayloadFail =>
          let res := flushRecords path (touchFile path fs r) rs os.tail
          (res.1, res.2.1, true)
      | .writeNewlineFail =>
          let res := flushRecords path (writeRecordNoNl path fs r) rs os.tail
          (res.1, res.2.1, true)

/-- The state owned by `fileappendWorker` (plus the modelled file tree and
a flag recording that the worker has exited and signalled `isClosed`). -/
structure FAState where
  path : String
  buffer : List fileAppendResult
  running : Bool
  closeWorker : Bool
  store : FileTree
  closed : Bool

/-- Events received by `fileappendWorker`'s `select`, with the outcomes of
the file-system calls each event triggers carried as data. -/
inductive FAEvent
  | closeSig
  | newPath (p : String) (mkdirOk : Bool)
  | dataEv (r : fileAppendResult)
  | tickEv (os : List FAWriteOutcome)
deriving DecidableEq

/-- The `tick.C` branch of `fileappendWorker`: stable-sort the buffer
(`sort.Stable` sorts in place), run the write loop. If the loop ran to its
end the buffer is replaced by a fresh empty one — even when per-record
writes failed; only a `MkdirAll` failure returns early, leaving the
(now sorted) buffer in place. Any failure clears `running`. Afterwards, if
`closeWorker` is set the worker signals `isClosed` and exits. -/
def fileappendTick (st : FAState) (os : List FAWriteOutcome) : FAState :=
  let fr := flushRecords st.path st.store (sortStable st.buffer) os
  let st' := { st with
    store := fr.1,
    buffer := if fr.2.1 then [] else sortStable st.buffer,
    running := if fr.2.2 then false else st.running }
  if st'.closeWorker then { st' with closed := true } else st'

/-- One iteration of `fileappendWorker`'s `select` loop. After the worker
has exited (`closed`), no further event is received. -/
def fileappendStep (st : FAState) (e : FAEvent) : FAState :=
  if st.closed then st else
  match e with
  | .closeSig => { st with closeWorker := true }
  | .newPath p ok =>
      if st.closeWorker then st
      else if ok then { st with path := p, running := true, buffer := [] }
      else { st with path := p }
  | .dataEv r =>
      if st.running then { st with buffer := st.buffer ++ [r] } else st
  | .tickEv os => fileappendTick st os

/-- Initial worker state over a fresh file tree. -/
def faInit : FAState :=
  { path := "", buffer := [], running := false, closeWorker := false,
    store := FileTree.empty, closed := false }

/-- Run the worker over a sequence of events. -/
def faRun (es : List FAEvent) : FAState :=
  es.foldl fileappendStep faInit

/-- `fileAppend.GetData` for a single key against the current state: read
the file `filepath.Join(fa.path, qn, q)`. -/
def fileAppendGetData (st : FAState) (qn q : String) : List (List Char) :=
  readKey (st.store (st.path, qn, q))

/-- The data events of a trace, in order. -/
def dataEvents (es : List FAEvent) : List fileAppendResult :=
  es.filterMap fun e =>
    match e with
    | .dataEv r => some r
    | _ => none

/-- The payloads submitted for one key by a trace, in submission order. -/
def submitted (es : List FAEvent) (qn q : String) : List (List Char) :=
  ((dataEvents es).filter (hasKey qn q)).map fileAppendResult.data

/-- A benign body event: a record submission, or a tick whose flush fully
succeeds. (No reconfiguration, no shutdown signal, no failing operation.) -/
def benignBody : FAEvent → Bool
  | .dataEv _ => true
  | .tickEv os => os.isEmpty
  | _ => false

/-- `fileAppend.SaveData` of the batch variant: the length guard, and the
records that the call sends to the worker when it passes. -/
def fileAppendSaveDataBatch (qn : String) (qIDs : List String)
    (dats : List (List Char)) : Except String (List fileAppendResult) :=
  if qIDs.length ≠ dats.length then
    .error "FileAppend: length of questionID does not match length of data"
  else
    .ok (List.zipWith (fun q d => ⟨qn, q, d⟩) qIDs dats)

/-- `fileAppend.SaveData` of the single-record variant: it hands the record
to the worker and returns `nil`, whatever happens later. -/
def fileAppendSaveDataSingle (qn q : String) (d : List Char) :
    Except String Unit × fileAppendResult :=
  (.ok (), ⟨qn, q, d⟩)

/-- The `sqliteResult` struct of `sqlite.go`. -/
structure sqliteResult where
  questionnaireID : String
  questionID : String
  data : String
deriving DecidableEq

/-- State owned by `sqliteWorker`: whether `s.db` is non-nil, the buffer,
and the modelled database table — its rows in autoincrement `id` order.
`panicked` records that the worker goroutine crashed on the nil-pointer
dereference of `s.db.Close()` in the shutdown branch. -/
structure SQState where
  db : Bool
  buffer : List sqliteResult
  table : List sqliteResult
  closeWorker : Bool
  closed : Bool
  panicked : Bool
deriving DecidableEq

/-- Outcome of the flush transaction of `sqliteWorker`: everything
succeeded, or `Begin`, one of the `Exec` inserts, or `Commit` failed.
The engine's transaction semantics is modelled: a rolled-back or
uncommitted transaction leaves the table unchanged. -/
inductive SQOutcome
  | ok
  | beginFail
  | insertFail
  | commitFail
deriving DecidableEq

/-- Events received by `sqliteWorker`'s `select`; `newPath` carries whether
`createDB` succeeded, `tick` carries the transaction outcome. -/
inductive SQEvent
  | closeSig
  | newPath (openOk : Bool)
  | dataEv (r : sqliteResult)
  | tickEv (o : SQOutcome)
deriving DecidableEq

/-- One iteration of `sqliteWorker`'s `select` loop. On `newPath` the old
handle is closed and nil-ed before `createDB`, so a failed open leaves
`db = nil` (and keeps the buffer); success resets the buffer. A record is
dropped when `db == nil`. A tick with a non-nil db and non-empty buffer
runs one transaction: on success the rows are appended to the table and the
buffer is reset; on any failure the transaction is rolled back or never
committed (table unchanged), `s.db` is set to nil, and the early return
keeps the buffer. After the flush, if `closeWorker` is set the worker calls
`s.db.Close()`: if `s.db` is non-nil at that point the handle is closed and
the worker signals `isClosed` and exits; if `s.db` is nil (never
configured, or nil-ed by a failure) the method call dereferences the nil
`*sql.DB` and the goroutine panics — `isClosed` is never signalled. -/
def sqliteStep (st : SQState) (e : SQEvent) : SQState :=
  if st.closed ∨ st.panicked then st else
  match e with
  | .closeSig => { st with closeWorker := true }
  | .newPath ok =>
      if st.closeWorker then st
      else if ok then { st with db := true, buffer := [] }
      else { st with db := false }
  | .dataEv r =>
      if st.db then { st with buffer := st.buffer ++ [r] } else st
  | .tickEv o =>
      let st' :=
        if st.db = false ∨ st.buffer = [] then st
        else
          match o with
          | .ok => { st with table := st.table ++ st.buffer, buffer := [] }
          | _ => { st with db := false }
      if st'.closeWorker then
        if st'.db then { st' with closed := true, db := false }
        else { st' with panicked := true }
      else st'

/-- Initial `sqliteWorker` state over an empty table. -/
def sqInit : SQState :=
  { db := false, buffer := [], table := [], closeWorker := false, closed := false,
    panicked := false }

/-- Run the sqlite worker over a sequence of events. -/
def sqRun (es : List SQEvent) : SQState :=
  es.foldl sqliteStep sqInit

/-- The `SELECT data FROM data WHERE questionnaire=? AND question=? ORDER BY
id ASC` read of `sqlite.GetData` (and of `mySQL.GetData`), over the modelled
table: rows are kept in autoincrement order, so the query is a filter. -/
def sqlSelect (table : List sqliteResult) (qn q : String) : List String :=
  (table.filter fun r => r.questionnaireID == qn && r.questionID == q).map
    sqliteResult.data

/-- `sqlite.GetData`: returns the empty slice when `s.db == nil`, the query
result otherwise. -/
def sqliteGetData (st : SQState) (qn q : String) : List String :=
  if st.db = false then [] else sqlSelect st.table qn q

/-- `sqlite.SaveData`: hands the record to the worker and returns `nil`. -/
def sqliteSaveData (qn q d : String) : Except String Unit × sqliteResult :=
  (.ok (), ⟨qn, q, d⟩)

/-- The data events of a sqlite trace, in order. -/
def sqDataEvents (es : List SQEvent) : List sqliteResult :=
  es.filterMap fun e =>
    match e with
    | .dataEv r => some r
    | _ => none

/-- Row-key membership test for the sqlite model. -/
def sqHasKey (qn q : String) (r : sqliteResult) : Bool :=
  r.questionnaireID == qn && r.questionID == q

/-- The payloads submitted for one key by a sqlite trace, in order. -/
def sqSubmitted (es : List SQEvent) (qn q : String) : List String :=
  ((sqDataEvents es).filter (sqHasKey qn q)).map sqliteResult.data

/-- A benign sqlite body event: a record submission or a fully successful
tick. -/
def sqBenignBody : SQEvent → Bool
  | .dataEv _ => true
  | .tickEv o => o = .ok
  | _ => false

/-- `MySQLMaxLengthID` of `mysql.go`. -/
def MySQLMaxLengthID : Nat := 150

/-- The error values returned by the MySQL adapter; database errors
(`Begin`/`Exec`/`Commit` failures) are collapsed into `dbError`. -/
inductive MySQLErr
  | notConfigured
  | idTooLong
  | lenMismatch
  | dbError
deriving DecidableEq

/-- The state of the MySQL adapter: whether `m.db` is non-nil, and the
modelled `data` table in autoincrement order. -/
structure MySQLState where
  configured : Bool
  table : List sqliteResult
deriving DecidableEq

/-- Outcomes of the database operations issued by one `mySQL.SaveData`
call: `Begin`, the `Exec` of each insert (missing entries default to
success), and `Commit`. -/
structure MySQLOracle where
  beginOk : Bool
  execOk : List Bool
  commitOk : Bool

/-- Did the first `n` inserts all succeed? -/
def execsOk (o : MySQLOracle) (n : Nat) : Bool :=
  (List.range n).all fun i => o.execOk.getD i true

/-- `mySQL.SaveData`: the guards in source order (nil db, questionnaire-ID
byte length, length mismatch, per-question-ID byte length), then one
transaction inserting every pair; any database failure is returned to the
caller and the deferred rollback leaves the table unchanged. -/
def mySQLSaveData (st : MySQLState) (qn : String) (qIDs dat : List String)
    (o : MySQLOracle) : Except MySQLErr Unit × MySQLState :=
  if st.configured = false then (.error .notConfigured, st)
  else if qn.utf8ByteSize > MySQLMaxLengthID then (.error .idTooLong, st)
  else if qIDs.length ≠ dat.length then (.error .lenMismatch, st)
  else if qIDs.any (fun q => q.utf8ByteSize > MySQLMaxLengthID) then (.error .idTooLong, st)
  else if o.beginOk = false then (.error .dbError, st)
  else if execsOk o qIDs.length = false then (.error .dbError, st)
  else if o.commitOk = false then (.error .dbError, st)
  else (.ok (), { st with
    table := st.table ++ List.zipWith (fun q d => ⟨qn, q, d⟩) qIDs dat })

/-- `mySQL.GetData`: the guards in source order — nil db, byte length of
`questionnaireID`, then `len(questionID) > MySQLMaxLengthID` where
`questionID` is the `[]string` of requested item IDs, so `len` is the
*number of requested IDs*; no per-element length check. Then one query per
requested ID. -/
def mySQLGetData (st : MySQLState) (qn : String) (qIDs : List String)
    (beginOk : Bool) : Except MySQLErr (List (List String)) :=
  if st.configured = false then .error .notConfigured
  else if qn.utf8ByteSize > MySQLMaxLengthID then .error .idTooLong
  else if qIDs.length > MySQLMaxLengthID then .error .idTooLong
  else if beginOk = false then .error .dbError
  else .ok (qIDs.map fun q => sqlSelect st.table qn q)

/-! ## Lemmas on the escaping codec -/

theorem replaceAllChar_append (pat : Char) (rep s t : List Char) :
    replaceAllChar (s ++ t) pat rep
      = replaceAllChar s pat rep ++ replaceAllChar t pat rep := by
  induction s with
  | nil => rfl
  | cons c cs ih => simp [replaceAllChar, ih, List.append_assoc]

theorem not_mem_replaceAllChar_nil (pat : Char) (s : List Char) :
    pat ∉ replaceAllChar s pat [] := by
  induction s with
  | nil => simp [replaceAllChar]
  | cons c cs ih =>
    by_cases hc : c = pat
    · simpa [replaceAllChar, hc] using ih
    · simp only [replaceAllChar, if_neg hc, List.singleton_append, List.mem_cons]
      intro h
      rcases h with h | h
      · exact hc h.symm
      · exact ih h

theorem unescape_substNl (s : List Char) (h : faSentinel ∉ s) :
    unescapeLine (replaceAllChar s nlChar [faSentinel]) = s := by
  induction s with
  | nil => rfl
  | cons c cs ih =>
    have hc : c ≠ faSentinel := fun hh => h (hh ▸ List.mem_cons_self c cs)
    have hcs : faSentinel ∉ cs := fun hh => h (List.mem_cons_of_mem _ hh)
    by_cases hnl : c = nlChar
    · simp only [replaceAllChar, if_pos hnl, List.singleton_append, unescapeLine,
        if_pos rfl]
      rw [hnl]
      simpa [unescapeLine] using ih hcs
    · simp only [replaceAllChar, if_neg hnl, List.singleton_append, unescapeLine,
        if_neg hc]
      simpa [unescapeLine] using ih hcs

theorem unescapeLine_escapeLine (d : List Char) :
    unescapeLine (escapeLine d) = stripSentinel d := by
  rw [escapeLine, stripSentinel]
  exact unescape_substNl _ (not_mem_replaceAllChar_nil _ _)

theorem stripSentinel_of_not_mem (d : List Char) (h : faSentinel ∉ d) :
    stripSentinel d = d := by
  induction d with
  | nil => rfl
  | cons c cs ih =>
    have hc : c ≠ faSentinel := fun hh => h (hh ▸ List.mem_cons_self c cs)
    have hcs : faSentinel ∉ cs := fun hh => h (List.mem_cons_of_mem _ hh)
    simp [stripSentinel, replaceAllChar, hc, ih hcs] at *
    simpa [stripSentinel] using ih hcs

theorem not_mem_escapeLine_nl (d : List Char) : nlChar ∉ escapeLine d := by
  rw [escapeLine]
  generalize replaceAllChar d faSentinel [] = s
  induction s with
  | nil => simp [replaceAllChar]
  | cons c cs ih =>
    by_cases hc : c = nlChar
    · simp only [replaceAllChar, if_pos hc, List.singleton_append, List.mem_cons]
      intro h
      rcases h with h | h
      · exact absurd h (by decide)
      · exact ih h
    · simp only [replaceAllChar, if_neg hc, List.singleton_append, List.mem_cons]
      intro h
      rcases h with h | h
      · exact hc h.symm
      · exact ih h

/-! ## Lemmas on file-content parsing -/

theorem splitNl_ne_nil (s : List Char) : splitNl s ≠ [] := by
  cases s with
  | nil => simp [splitNl]
  | cons c cs =>
    rw [splitNl]
    cases h : splitNl cs with
    | nil => simp
    | cons a t => by_cases hc : c = nlChar <;> simp [hc]

theorem splitNl_no_nl (l : List Char) (h : nlChar ∉ l) : splitNl l = [l] := by
  induction l with
  | nil => rfl
  | cons c cs ih =>
    have hc : c ≠ nlChar := fun hh => h (hh ▸ List.mem_cons_self c cs)
    have hcs : nlChar ∉ cs := fun hh => h (List.mem_cons_of_mem _ hh)
    rw [splitNl, ih hcs]
    simp [hc]

theorem splitNl_append_nl (l rest : List Char) (h : nlChar ∉ l) :
    splitNl (l ++ nlChar :: rest) = l :: splitNl rest := by
  induction l with
  | nil =>
    simp only [List.nil_append, splitNl]
    cases hr : splitNl rest with
    | nil => exact absurd hr (splitNl_ne_nil rest)
    | cons a t => simp
  | cons c cs ih =>
    have hc : c ≠ nlChar := fun hh => h (hh ▸ List.mem_cons_self c cs)
    have hcs : nlChar ∉ cs := fun hh => h (List.mem_cons_of_mem _ hh)
    rw [List.cons_append, splitNl, ih hcs]
    simp [hc]

theorem joinLines_ne_nil (ls : List (List Char)) (h : ls ≠ []) :
    joinLines ls ≠ [] := by
  cases ls with
  | nil => exact absurd rfl h
  | cons l t =>
    rw [joinLines]
    intro hh
    have := List.append_eq_nil.mp hh
    exact absurd this.2 (List.cons_ne_nil _ _)

theorem joinLines_concat (ls : List (List Char)) (l : List Char) :
    joinLines (ls ++ [l]) = joinLines ls ++ l ++ [nlChar] := by
  induction ls with
  | nil => simp [joinLines]
  | cons a as ih => simp [joinLines, ih]

theorem joinLines_getLast (ls : List (List Char)) (h : ls ≠ []) :
    (joinLines ls).getLast? = some nlChar := by
  rcases List.eq_nil_or_concat ls with hnil | ⟨L, b, hlb⟩
  · exact absurd hnil h
  · rw [hlb, List.concat_eq_append, joinLines_concat]
    exact List.getLast?_concat _

theorem splitNl_dropLast_joinLines (ls : List (List Char)) (h : ls ≠ [])
    (hnl : ∀ l ∈ ls, nlChar ∉ l) :
    splitNl (joinLines ls).dropLast = ls := by
  induction ls with
  | nil => exact absurd rfl h
  | cons l t ih =>
    cases t with
    | nil =>
      show splitNl (l ++ nlChar :: joinLines []).dropLast = [l]
      rw [joinLines]
      have : (l ++ [nlChar]).dropLast = l := List.dropLast_concat
      rw [this]
      exact splitNl_no_nl l (hnl l (List.mem_cons_self _ _))
    | cons m ms =>
      have ht : (m :: ms : List (List Char)) ≠ [] := List.cons_ne_nil _ _
      have hj : joinLines (m :: ms) ≠ [] := joinLines_ne_nil _ ht
      show splitNl (l ++ nlChar :: joinLines (m :: ms)).dropLast = l :: m :: ms
      rw [List.dropLast_append_cons, List.dropLast_cons_of_ne_nil hj,
        splitNl_append_nl _ _ (hnl l (List.mem_cons_self _ _))]
      rw [ih ht fun x hx => hnl x (List.mem_cons_of_mem _ hx)]

theorem parseContent_joinLines (ls : List (List Char)) (h : ls ≠ [])
    (hnl : ∀ l ∈ ls, nlChar ∉ l) :
    parseContent (joinLines ls) = ls.map unescapeLine := by
  rw [parseContent, trimSuffixNl, if_pos (joinLines_getLast ls h),
    splitNl_dropLast_joinLines ls h hnl]

theorem readKey_repLines {co : Option (List Char)} {ls : List (List Char)}
    (h : repLines co ls) : readKey co = ls.map unescapeLine := by
  rcases h with ⟨hco, hls⟩ | ⟨hco, hne, hnl⟩
  · rw [hco, hls]; rfl
  · rw [hco]
    exact parseContent_joinLines ls hne hnl

theorem repLines_append {co : Option (List Char)} {ls : List (List Char)}
    (h : repLines co ls) (d : List Char) :
    repLines (some ((co.getD [] ++ escapeLine d) ++ [nlChar])) (ls ++ [escapeLine d]) := by
  rcases h with ⟨hco, hls⟩ | ⟨hco, _, hnl⟩
  · right
    subst hco; subst hls
    refine ⟨?_, by simp, ?_⟩
    · simp [joinLines]
    · intro l hl
      rw [List.mem_singleton.mp hl]
      exact not_mem_escapeLine_nl d
  · right
    subst hco
    refine ⟨?_, by simp, ?_⟩
    · rw [joinLines_concat]
      rfl
    · intro l hl
      rcases List.mem_append.mp hl with hl | hl
      · exact hnl l hl
      · rw [List.mem_singleton.mp hl]
        exact not_mem_escapeLine_nl d

/-! ## Lemmas on the stable sort and the flush loop -/

theorem hasKey_eq_true_iff {qn q : String} {r : fileAppendResult} :
    hasKey qn q r = true ↔ r.questionnaireID = qn ∧ r.questionID = q := by
  simp [hasKey]

theorem charListLess_irrefl (l : List Char) : charListLess l l = false := by
  induction l with
  | nil => rfl
  | cons c cs ih =>
    rw [charListLess, if_neg (lt_irrefl c), if_neg (lt_irrefl c)]
    exact ih

theorem goStringLess_ne {a b : String} (h : goStringLess a b = true) : ¬ a = b := by
  intro he
  subst he
  rw [goStringLess, charListLess_irrefl] at h
  exact absurd h (by simp)

theorem hasKey_false_of_less {qn q : String} {x y : fileAppendResult}
    (hx : hasKey qn q x = true) (hlt : fileAppendLess y x = true) :
    hasKey qn q y = false := by
  obtain ⟨hx1, hx2⟩ := hasKey_eq_true_iff.mp hx
  rw [fileAppendLess] at hlt
  by_cases h1 : goStringLess y.questionnaireID x.questionnaireID = true
  · have hne : ¬ y.questionnaireID = qn := by
      intro he
      exact goStringLess_ne h1 (he.trans hx1.symm)
    simp [hasKey, hne]
  · rw [if_neg h1] at hlt
    by_cases h2 : goStringLess x.questionnaireID y.questionnaireID = true
    · rw [if_pos h2] at hlt
      exact absurd hlt (by simp)
    · rw [if_neg h2] at hlt
      have hne : ¬ y.questionID = q := by
        intro he
        exact goStringLess_ne hlt (he.trans hx2.symm)
      simp [hasKey, hne]

theorem filter_sortStableInsert (qn q : String) (x : fileAppendResult)
    (l : List fileAppendResult) :
    (sortStableInsert x l).filter (hasKey qn q)
      = if hasKey qn q x then x :: l.filter (hasKey qn q)
        else l.filter (hasKey qn q) := by
  induction l with
  | nil =>
    by_cases hx : hasKey qn q x = true <;> simp [sortStableInsert, List.filter, hx]
  | cons y ys ih =>
    rw [sortStableInsert]
    by_cases hyx : fileAppendLess y x = true
    · rw [if_pos hyx]
      by_cases hx : hasKey qn q x = true
      · have hy := hasKey_false_of_less hx hyx
        simp [List.filter_cons, hy, ih, hx]
      · by_cases hy : hasKey qn q y = true <;>
          simp [List.filter_cons, ih, hx, hy]
    · rw [if_neg hyx]
      by_cases hx : hasKey qn q x = true <;> simp [List.filter_cons, hx]

theorem filter_sortStable (qn q : String) (l : List fileAppendResult) :
    (sortStable l).filter (hasKey qn q) = l.filter (hasKey qn q) := by
  induction l with
  | nil => rfl
  | cons x xs ih =>
    show (sortStableInsert x (sortStable xs)).filter _ = _
    rw [filter_sortStableInsert]
    by_cases hx : hasKey qn q x = true <;> simp [List.filter_cons, hx, ih]

theorem flushRecords_nil_oracle (path : String) (fs : FileTree)
    (rs : List fileAppendResult) :
    flushRecords path fs rs [] = (rs.foldl (writeRecord path) fs, true, false) := by
  induction rs generalizing fs with
  | nil => rfl
  | cons r rs ih =>
    rw [flushRecords]
    exact ih (writeRecord path fs r)

theorem foldl_writeRecord_repLines (path qn q : String)
    (rs : List fileAppendResult) (fs : FileTree) (ls : List (List Char))
    (h : repLines (fs (path, qn, q)) ls) :
    repLines ((rs.foldl (writeRecord path) fs) (path, qn, q))
      (ls ++ (rs.filter (hasKey qn q)).map (fun r => escapeLine r.data)) := by
  induction rs generalizing fs ls with
  | nil => simpa using h
  | cons r rs ih =>
    rw [List.foldl_cons, List.filter_cons]
    by_cases hr : hasKey qn q r = true
    · rw [if_pos hr]
      obtain ⟨h1, h2⟩ := hasKey_eq_true_iff.mp hr
      have hw : (writeRecord path fs r) (path, qn, q)
          = some (((fs (path, qn, q)).getD [] ++ escapeLine r.data) ++ [nlChar]) := by
        simp [writeRecord, h1, h2]
      have hrep : repLines ((writeRecord path fs r) (path, qn, q))
          (ls ++ [escapeLine r.data]) := by
        rw [hw]
        exact repLines_append h r.data
      have := ih (writeRecord path fs r) (ls ++ [escapeLine r.data]) hrep
      simpa [List.append_assoc] using this
    · rw [if_neg hr]
      have hkey : ¬ ((path, qn, q) = (path, r.questionnaireID, r.questionID)) := by
        intro he
        simp only [Prod.mk.injEq] at he
        obtain ⟨-, he1, he2⟩ := he
        simp [hasKey, ← he1, ← he2] at hr
      have hw : (writeRecord path fs r) (path, qn, q) = fs (path, qn, q) := by
        simp [writeRecord, hkey]
      exact ih (writeRecord path fs r) ls (by rw [hw]; exact h)

theorem map_unescape_escape (l : List fileAppendResult) :
    (l.map (fun r => escapeLine r.data)).map unescapeLine
      = l.map (fun r => stripSentinel r.data) := by
  induction l with
  | nil => rfl
  | cons r rs ih => simp [unescapeLine_escapeLine, ih]

theorem submitted_cons_data (r : fileAppendResult) (rest : List FAEvent)
    (qn q : String) :
    submitted (.dataEv r :: rest) qn q
      = if hasKey qn q r then r.data :: submitted rest qn q
        else submitted rest qn q := by
  by_cases h : hasKey qn q r = true <;>
    simp [submitted, dataEvents, List.filter_cons, h]

theorem submitted_cons_tick (os : List FAWriteOutcome) (rest : List FAEvent)
    (qn q : String) :
    submitted (.tickEv os :: rest) qn q = submitted rest qn q := by
  simp [submitted, dataEvents]

/-! ## The benign-trace invariant of the fileappend worker -/

theorem faBody_spec (qn q : String) (body : List FAEvent) :
    ∀ (st : FAState) (ls : List (List Char)),
      (∀ e ∈ body, benignBody e = true) →
      st.running = true → st.closed = false → st.closeWorker = false →
      repLines (st.store (st.path, qn, q)) ls →
      ∃ ls',
        repLines ((body.foldl fileappendStep st).store
          ((body.foldl fileappendStep st).path, qn, q)) ls' ∧
        (body.foldl fileappendStep st).path = st.path ∧
        (body.foldl fileappendStep st).running = true ∧
        (body.foldl fileappendStep st).closed = false ∧
        (body.foldl fileappendStep st).closeWorker = false ∧
        ls'.map unescapeLine
          ++ (((body.foldl fileappendStep st).buffer.filter (hasKey qn q)).map
              (fun r => stripSentinel r.data))
          = ls.map unescapeLine
            ++ ((st.buffer.filter (hasKey qn q)).map (fun r => stripSentinel r.data))
            ++ (submitted body qn q).map stripSentinel := by
  induction body with
  | nil =>
    intro st ls _ hrun hcl hcw hrep
    exact ⟨ls, hrep, rfl, hrun, hcl, hcw, by simp [submitted, dataEvents]⟩
  | cons e rest ih =>
    intro st ls hb hrun hcl hcw hrep
    have hbe : benignBody e = true := hb e (List.mem_cons_self _ _)
    have hbrest : ∀ x ∈ rest, benignBody x = true :=
      fun x hx => hb x (List.mem_cons_of_mem _ hx)
    rw [List.foldl_cons]
    cases e with
    | closeSig => simp [benignBody] at hbe
    | newPath p ok => simp [benignBody] at hbe
    | dataEv r =>
      have hst : fileappendStep st (.dataEv r)
          = { st with buffer := st.buffer ++ [r] } := by
        simp [fileappendStep, hcl, hrun]
      rw [hst]
      obtain ⟨ls', h1, h2, h3, h4, h5, h6⟩ :=
        ih { st with buffer := st.buffer ++ [r] } ls hbrest hrun hcl hcw hrep
      refine ⟨ls', h1, h2, h3, h4, h5, ?_⟩
      rw [h6, submitted_cons_data]
      by_cases hk : hasKey qn q r = true <;>
        simp [List.filter_append, List.filter_cons, hk, List.append_assoc]
    | tickEv os =>
      have hos : os = [] := by simpa [benignBody, List.isEmpty_iff] using hbe
      subst hos
      have hst : fileappendStep st (.tickEv [])
          = { st with
                store := (sortStable st.buffer).foldl (writeRecord st.path) st.store,
                buffer := [] } := by
        simp [fileappendStep, hcl, fileappendTick, flushRecords_nil_oracle, hcw]
      rw [hst]
      have hrep1 : repLines
          (((sortStable st.buffer).foldl (writeRecord st.path) st.store) (st.path, qn, q))
          (ls ++ ((st.buffer.filter (hasKey qn q)).map (fun r => escapeLine r.data))) := by
        have := foldl_writeRecord_repLines st.path qn q (sortStable st.buffer) st.store ls hrep
        rwa [filter_sortStable] at this
      obtain ⟨ls', h1, h2, h3, h4, h5, h6⟩ :=
        ih { st with
               store := (sortStable st.buffer).foldl (writeRecord st.path) st.store,
               buffer := [] }
          (ls ++ ((st.buffer.filter (hasKey qn q)).map (fun r => escapeLine r.data)))
          hbrest hrun hcl hcw hrep1
      refine ⟨ls', h1, h2, h3, h4, h5, ?_⟩
      rw [h6, submitted_cons_tick]
      simp [List.map_append, map_unescape_escape, List.append_assoc,
        unescapeLine_escapeLine]

theorem faTrace_spec (p qn q : String) (body : List FAEvent)
    (hb : ∀ e ∈ body, benignBody e = true) :
    (faRun (FAEvent.newPath p true :: (body ++ [FAEvent.closeSig, FAEvent.tickEv []]))).closed
        = true ∧
    (faRun (FAEvent.newPath p true :: (body ++ [FAEvent.closeSig, FAEvent.tickEv []]))).buffer
        = [] ∧
    (faRun (FAEvent.newPath p true :: (body ++ [FAEvent.closeSig, FAEvent.tickEv []]))).path
        = p ∧
    fileAppendGetData
        (faRun (FAEvent.newPath p true :: (body ++ [FAEvent.closeSig, FAEvent.tickEv []])))
        qn q
      = (submitted body qn q).map stripSentinel := by
  have hst0 : fileappendStep faInit (.newPath p true)
      = { path := p, buffer := [], running := true, closeWorker := false,
          store := FileTree.empty, closed := false } := by
    simp [fileappendStep, faInit]
  have hrep0 : repLines (FileTree.empty (p, qn, q)) [] := Or.inl ⟨rfl, rfl⟩
  obtain ⟨ls', h1, h2, h3, h4, h5, h6⟩ :=
    faBody_spec qn q body
      { path := p, buffer := [], running := true, closeWorker := false,
        store := FileTree.empty, closed := false } [] hb rfl rfl rfl hrep0
  rw [faRun, List.foldl_cons, hst0]
  set st1 := body.foldl fileappendStep
    { path := p, buffer := [], running := true, closeWorker := false,
      store := FileTree.empty, closed := false } with hst1
  rw [List.foldl_append]
  simp only [List.foldl_cons, List.foldl_nil]
  have hstep2 : fileappendStep st1 .closeSig = { st1 with closeWorker := true } := by
    simp [fileappendStep, h4]
  rw [hstep2]
  have hstep3 : fileappendStep { st1 with closeWorker := true } (.tickEv [])
      = { st1 with
            closeWorker := true,
            store := (sortStable st1.buffer).foldl (writeRecord st1.path) st1.store,
            buffer := [],
            closed := true } := by
    simp [fileappendStep, h4, fileappendTick, flushRecords_nil_oracle]
  rw [hstep3]
  refine ⟨rfl, rfl, h2, ?_⟩
  have hrep2 : repLines
      (((sortStable st1.buffer).foldl (writeRecord st1.path) st1.store) (st1.path, qn, q))
      (ls' ++ ((st1.buffer.filter (hasKey qn q)).map (fun r => escapeLine r.data))) := by
    have := foldl_writeRecord_repLines st1.path qn q (sortStable st1.buffer) st1.store ls' h1
    rwa [filter_sortStable] at this
  show readKey _ = _
  have hpath : ({ st1 with
      closeWorker := true,
      store := (sortStable st1.buffer).foldl (writeRecord st1.path) st1.store,
      buffer := [],
      closed := true } : FAState).path = st1.path := rfl
  rw [hpath, readKey_repLines hrep2]
  rw [List.map_append, map_unescape_escape]
  simpa using h6

/-! ## The benign-trace invariant of the sqlite worker -/

theorem sqlSelect_filter (t : List sqliteResult) (qn q : String) :
    sqlSelect t qn q = (t.filter (sqHasKey qn q)).map sqliteResult.data := rfl

theorem sqSubmitted_cons_data (r : sqliteResult) (rest : List SQEvent)
    (qn q : String) :
    sqSubmitted (.dataEv r :: rest) qn q
      = if sqHasKey qn q r then r.data :: sqSubmitted rest qn q
        else sqSubmitted rest qn q := by
  by_cases h : sqHasKey qn q r = true <;>
    simp [sqSubmitted, sqDataEvents, List.filter_cons, h]

theorem sqSubmitted_cons_tick (o : SQOutcome) (rest : List SQEvent)
    (qn q : String) :
    sqSubmitted (.tickEv o :: rest) qn q = sqSubmitted rest qn q := by
  simp [sqSubmitted, sqDataEvents]

theorem sqBody_spec (qn q : String) (body : List SQEvent) :
    ∀ st : SQState,
      (∀ e ∈ body, sqBenignBody e = true) →
      st.db = true → st.closed = false → st.closeWorker = false →
      st.panicked = false →
      (body.foldl sqliteStep st).db = true ∧
      (body.foldl sqliteStep st).closed = false ∧
      (body.foldl sqliteStep st).closeWorker = false ∧
      (body.foldl sqliteStep st).panicked = false ∧
      ((body.foldl sqliteStep st).table.filter (sqHasKey qn q)).map sqliteResult.data
          ++ (((body.foldl sqliteStep st).buffer.filter (sqHasKey qn q)).map
                sqliteResult.data)
        = (st.table.filter (sqHasKey qn q)).map sqliteResult.data
            ++ ((st.buffer.filter (sqHasKey qn q)).map sqliteResult.data)
            ++ sqSubmitted body qn q := by
  induction body with
  | nil =>
    intro st _ hdb hcl hcw hpk
    exact ⟨hdb, hcl, hcw, hpk, by simp [sqSubmitted, sqDataEvents]⟩
  | cons e rest ih =>
    intro st hb hdb hcl hcw hpk
    have hbe : sqBenignBody e = true := hb e (List.mem_cons_self _ _)
    have hbrest : ∀ x ∈ rest, sqBenignBody x = true :=
      fun x hx => hb x (List.mem_cons_of_mem _ hx)
    rw [List.foldl_cons]
    cases e with
    | closeSig => simp [sqBenignBody] at hbe
    | newPath ok => simp [sqBenignBody] at hbe
    | dataEv r =>
      have hst : sqliteStep st (.dataEv r) = { st with buffer := st.buffer ++ [r] } := by
        simp [sqliteStep, hcl, hpk, hdb]
      rw [hst]
      obtain ⟨h1, h2, h3, h4, h5⟩ :=
        ih { st with buffer := st.buffer ++ [r] } hbrest hdb hcl hcw hpk
      refine ⟨h1, h2, h3, h4, ?_⟩
      rw [h5, sqSubmitted_cons_data]
      by_cases hk : sqHasKey qn q r = true <;>
        simp [List.filter_append, List.filter_cons, hk, List.append_assoc]
    | tickEv o =>
      have ho : o = .ok := by
        cases o <;> simp [sqBenignBody] at hbe ⊢
      subst ho
      by_cases hemp : st.buffer = []
      · have hst : sqliteStep st (.tickEv .ok) = st := by
          simp [sqliteStep, hcl, hpk, hemp, hcw]
        rw [hst]
        obtain ⟨h1, h2, h3, h4, h5⟩ := ih st hbrest hdb hcl hcw hpk
        exact ⟨h1, h2, h3, h4, by rw [h5, sqSubmitted_cons_tick]⟩
      · have hst : sqliteStep st (.tickEv .ok)
            = { st with table := st.table ++ st.buffer, buffer := [] } := by
          simp [sqliteStep, hcl, hpk, hdb, hemp, hcw]
        rw [hst]
        obtain ⟨h1, h2, h3, h4, h5⟩ :=
          ih { st with table := st.table ++ st.buffer, buffer := [] } hbrest hdb hcl hcw hpk
        refine ⟨h1, h2, h3, h4, ?_⟩
        rw [h5, sqSubmitted_cons_tick]
        simp [List.filter_append, List.append_assoc]

theorem sqTrace_spec (qn q : String) (body : List SQEvent)
    (hb : ∀ e ∈ body, sqBenignBody e = true) :
    (sqRun (SQEvent.newPath true :: (body ++ [SQEvent.closeSig, SQEvent.tickEv .ok]))).closed
        = true ∧
    (sqRun (SQEvent.newPath true :: (body ++ [SQEvent.closeSig, SQEvent.tickEv .ok]))).buffer
        = [] ∧
    sqlSelect
        (sqRun (SQEvent.newPath true :: (body ++ [SQEvent.closeSig, SQEvent.tickEv .ok]))).table
        qn q
      = sqSubmitted body qn q := by
  have hst0 : sqliteStep sqInit (.newPath true)
      = SQState.mk true [] [] false false false := by
    simp [sqliteStep, sqInit]
  rw [sqRun, List.foldl_cons, hst0]
  obtain ⟨h1, h2, h3, h4, h5⟩ :=
    sqBody_spec qn q body (SQState.mk true [] [] false false false)
      hb rfl rfl rfl rfl
  set st1 := body.foldl sqliteStep (SQState.mk true [] [] false false false) with hst1
  rw [List.foldl_append]
  simp only [List.foldl_cons, List.foldl_nil]
  have hstep2 : sqliteStep st1 .closeSig = { st1 with closeWorker := true } := by
    simp [sqliteStep, h2, h4]
  rw [hstep2]
  by_cases hemp : st1.buffer = []
  · have hstep3 : sqliteStep { st1 with closeWorker := true } (.tickEv .ok)
        = { st1 with closeWorker := true, closed := true, db := false } := by
      simp [sqliteStep, h2, h4, h1, hemp]
    rw [hstep3]
    refine ⟨rfl, hemp, ?_⟩
    rw [sqlSelect_filter]
    have h5' := h5
    rw [hemp] at h5'
    simpa [sqlSelect_filter] using h5'
  · have hstep3 : sqliteStep { st1 with closeWorker := true } (.tickEv .ok)
        = { st1 with closeWorker := true, closed := true, db := false, table := st1.table ++ st1.buffer, buffer := [] } := by
      simp [sqliteStep, h2, h4, h1, hemp]
    rw [hstep3]
    refine ⟨rfl, rfl, ?_⟩
    rw [sqlSelect_filter]
    simpa [List.filter_append, List.map_append, List.append_assoc] using h5

/-! ## Claim theorems -/

theorem submitted_strip_id (body : List FAEvent) (qn q : String)
    (hclean : ∀ r ∈ dataEvents body, faSentinel ∉ r.data) :
    (submitted body qn q).map stripSentinel = submitted body qn q := by
  have h : ∀ d ∈ submitted body qn q, stripSentinel d = d := by
    intro d hd
    rw [submitted] at hd
    obtain ⟨r, hr, hrd⟩ := List.mem_map.mp hd
    have hr' := List.mem_filter.mp hr
    exact hrd ▸ stripSentinel_of_not_mem _ (hclean r hr'.1)
  calc (submitted body qn q).map stripSentinel
      = (submitted body qn q).map id := List.map_congr_left h
    _ = submitted body qn q := List.map_id _

/-- C1: for every fixed `(collectionID, itemID)` key, the sequence of
payloads returned by `GetData` for that key equals the submission order of
the successfully committed `SaveData` calls for that key — records of one
key are never reordered relative to each other, and records of a different
key are never interleaved. Stated for the file adapter over any
benign worker trace (a successful configuration followed by submissions
and fully successful flushes, then shutdown; payloads without the reserved
sentinel), and for the relational adapter (`ORDER BY id ASC` over the
autoincrement table) over the corresponding benign sqlite worker trace. -/
theorem claim_C1_per_key_order (p qn q : String) (body : List FAEvent)
    (sbody : List SQEvent)
    (hb : ∀ e ∈ body, benignBody e = true)
    (hclean : ∀ r ∈ dataEvents body, faSentinel ∉ r.data)
    (hsb : ∀ e ∈ sbody, sqBenignBody e = true) :
    fileAppendGetData
        (faRun (FAEvent.newPath p true :: (body ++ [FAEvent.closeSig, FAEvent.tickEv []])))
        qn q
      = submitted body qn q ∧
    sqlSelect
        (sqRun (SQEvent.newPath true :: (sbody ++ [SQEvent.closeSig, SQEvent.tickEv .ok]))).table
        qn q
      = sqSubmitted sbody qn q := by
  constructor
  · rw [(faTrace_spec p qn q body hb).2.2.2]
    exact submitted_strip_id body qn q hclean
  · exact (sqTrace_spec qn q sbody hsb).2.2

theorem claim_C1_witness :
    (∀ e ∈ ([FAEvent.dataEv ⟨"s", "q", ['a']⟩, FAEvent.tickEv [],
        FAEvent.dataEv ⟨"t", "q", ['x']⟩, FAEvent.dataEv ⟨"s", "q", ['b']⟩] : List FAEvent),
      benignBody e = true) ∧
    fileAppendGetData
        (faRun (FAEvent.newPath "d" true ::
          ([FAEvent.dataEv ⟨"s", "q", ['a']⟩, FAEvent.tickEv [],
            FAEvent.dataEv ⟨"t", "q", ['x']⟩, FAEvent.dataEv ⟨"s", "q", ['b']⟩]
            ++ [FAEvent.closeSig, FAEvent.tickEv []])))
        "s" "q"
      = [['a'], ['b']] ∧
    sqlSelect
        (sqRun (SQEvent.newPath true ::
          ([SQEvent.dataEv ⟨"s", "q", "A"⟩, SQEvent.dataEv ⟨"s", "q", "B"⟩]
            ++ [SQEvent.closeSig, SQEvent.tickEv .ok]))).table
        "s" "q"
      = ["A", "B"] := by
  have h := claim_C1_per_key_order "d" "s" "q"
    [FAEvent.dataEv ⟨"s", "q", ['a']⟩, FAEvent.tickEv [],
      FAEvent.dataEv ⟨"t", "q", ['x']⟩, FAEvent.dataEv ⟨"s", "q", ['b']⟩]
    [SQEvent.dataEv ⟨"s", "q", "A"⟩, SQEvent.dataEv ⟨"s", "q", "B"⟩]
    (by decide) (by decide) (by decide)
  exact ⟨by decide, h.1.trans (by decide), h.2.trans (by decide)⟩

/-- C2 counterexample: the record `("s","q",['a'])` is enqueued by a
`SaveData` call that returned successfully (it sits in the worker's buffer),
a second successful `LoadConfig` then resets the buffer, `FlushAndClose`
completes (worker closed, all flushes fully successful — no commit error),
yet the record is not visible via `GetData`: enqueued-before-shutdown
records can be lost without any commit error, through reconfiguration. -/
theorem claim_C2_counterexample :
    (faRun [FAEvent.newPath "d" true, FAEvent.dataEv ⟨"s", "q", ['a']⟩]).buffer
        = [⟨"s", "q", ['a']⟩] ∧
    (faRun [FAEvent.newPath "d" true, FAEvent.dataEv ⟨"s", "q", ['a']⟩,
        FAEvent.newPath "d" true, FAEvent.closeSig, FAEvent.tickEv []]).closed = true ∧
    fileAppendGetData
        (faRun [FAEvent.newPath "d" true, FAEvent.dataEv ⟨"s", "q", ['a']⟩,
          FAEvent.newPath "d" true, FAEvent.closeSig, FAEvent.tickEv []]) "s" "q"
      = [] := by
  refine ⟨by decide, by decide, by decide⟩

/-- C2 as amended: every record enqueued by a successfully returning
`SaveData` before `FlushAndClose` is visible via `GetData` after
`FlushAndClose` returns, assuming no commit error occurs *and the writer is
not reconfigured after the record is enqueued*; and `FlushAndClose` returns
only once the worker has performed the final flush (the worker is closed
and its buffer has been fully flushed). -/
theorem claim_C2_amended_shutdown_durability (p qn q : String) (d : List Char)
    (body : List FAEvent)
    (hb : ∀ e ∈ body, benignBody e = true)
    (hr : FAEvent.dataEv ⟨qn, q, d⟩ ∈ body) :
    (faRun (FAEvent.newPath p true :: (body ++ [FAEvent.closeSig, FAEvent.tickEv []]))).closed
        = true ∧
    (faRun (FAEvent.newPath p true :: (body ++ [FAEvent.closeSig, FAEvent.tickEv []]))).buffer
        = [] ∧
    stripSentinel d ∈
      fileAppendGetData
        (faRun (FAEvent.newPath p true :: (body ++ [FAEvent.closeSig, FAEvent.tickEv []])))
        qn q := by
  obtain ⟨h1, h2, h3, h4⟩ := faTrace_spec p qn q body hb
  refine ⟨h1, h2, ?_⟩
  rw [h4]
  refine List.mem_map.mpr ⟨d, ?_, rfl⟩
  rw [submitted]
  refine List.mem_map.mpr ⟨⟨qn, q, d⟩, ?_, rfl⟩
  refine List.mem_filter.mpr ⟨?_, by simp [hasKey]⟩
  rw [dataEvents]
  exact List.mem_filterMap.mpr ⟨FAEvent.dataEv ⟨qn, q, d⟩, hr, rfl⟩

theorem claim_C2_witness :
    (∀ e ∈ ([FAEvent.dataEv ⟨"s", "q", ['a']⟩] : List FAEvent), benignBody e = true) ∧
    FAEvent.dataEv ⟨"s", "q", ['a']⟩ ∈ ([FAEvent.dataEv ⟨"s", "q", ['a']⟩] : List FAEvent) ∧
    stripSentinel ['a'] ∈
      fileAppendGetData
        (faRun (FAEvent.newPath "d" true ::
          ([FAEvent.dataEv ⟨"s", "q", ['a']⟩] ++ [FAEvent.closeSig, FAEvent.tickEv []])))
        "s" "q" :=
  ⟨by decide, by decide,
    (claim_C2_amended_shutdown_durability "d" "s" "q" ['a']
      [FAEvent.dataEv ⟨"s", "q", ['a']⟩] (by decide) (by decide)).2.2⟩

/-- C3 counterexample: in the file-tree adapter a failed flush is not
all-or-nothing. The batch holds records for keys `("s","q1")` and
`("s","q2")`; writing the second record's payload fails, so the commit as a
whole fails (the worker leaves the running state; the batch's buffer was
reset, since only `MkdirAll` failures abort the loop), yet the first
record of the batch is visible to `GetData` — and the failed record's file
was created empty by `OpenFile(O_CREATE)`, so its key now reads `[""]`. -/
theorem claim_C3_counterexample :
    (faRun [FAEvent.newPath "d" true, FAEvent.dataEv ⟨"s", "q1", ['a']⟩,
        FAEvent.dataEv ⟨"s", "q2", ['b']⟩,
        FAEvent.tickEv [FAWriteOutcome.ok, FAWriteOutcome.writePayloadFail]]).running
      = false ∧
    (faRun [FAEvent.newPath "d" true, FAEvent.dataEv ⟨"s", "q1", ['a']⟩,
        FAEvent.dataEv ⟨"s", "q2", ['b']⟩,
        FAEvent.tickEv [FAWriteOutcome.ok, FAWriteOutcome.writePayloadFail]]).buffer
      = [] ∧
    fileAppendGetData
        (faRun [FAEvent.newPath "d" true, FAEvent.dataEv ⟨"s", "q1", ['a']⟩,
          FAEvent.dataEv ⟨"s", "q2", ['b']⟩,
          FAEvent.tickEv [FAWriteOutcome.ok, FAWriteOutcome.writePayloadFail]]) "s" "q1"
      = [['a']] ∧
    fileAppendGetData
        (faRun [FAEvent.newPath "d" true, FAEvent.dataEv ⟨"s", "q1", ['a']⟩,
          FAEvent.dataEv ⟨"s", "q2", ['b']⟩,
          FAEvent.tickEv [FAWriteOutcome.ok, FAWriteOutcome.writePayloadFail]]) "s" "q2"
      = [[]] := by
  refine ⟨by decide, by decide, by decide, by decide⟩

/-- C3 as amended: a failed batch commit is all-or-nothing in the
relational adapters — in the sqlite worker, any `Begin`/`Exec`/`Commit`
failure leaves the table unchanged (transaction rollback) and puts the
writer into the not-running state (`db = nil`); the file-tree adapter gives
no all-or-nothing guarantee: on a failed flush, records of the batch other
than the failing one (both earlier and later ones — the write loop
continues past per-record failures, and only a directory-creation failure
aborts the remainder) may still be appended and visible, as the
counterexample shows. -/
theorem claim_C3_amended_all_or_nothing (st : SQState) (o : SQOutcome)
    (ho : o ≠ SQOutcome.ok) (hcl : st.closed = false)
    (hpk : st.panicked = false) :
    (sqliteStep st (.tickEv o)).table = st.table ∧
    (st.db = true → st.buffer ≠ [] → (sqliteStep st (.tickEv o)).db = false) := by
  constructor
  · cases o with
    | ok => exact absurd rfl ho
    | beginFail =>
      by_cases hdb : st.db = false <;> by_cases hemp : st.buffer = [] <;>
        by_cases hcw : st.closeWorker = true <;>
        by_cases hdb2 : st.db = true <;>
        simp [sqliteStep, hcl, hpk, hdb, hemp, hcw, hdb2]
    | insertFail =>
      by_cases hdb : st.db = false <;> by_cases hemp : st.buffer = [] <;>
        by_cases hcw : st.closeWorker = true <;>
        by_cases hdb2 : st.db = true <;>
        simp [sqliteStep, hcl, hpk, hdb, hemp, hcw, hdb2]
    | commitFail =>
      by_cases hdb : st.db = false <;> by_cases hemp : st.buffer = [] <;>
        by_cases hcw : st.closeWorker = true <;>
        by_cases hdb2 : st.db = true <;>
        simp [sqliteStep, hcl, hpk, hdb, hemp, hcw, hdb2]
  · intro hdb hemp
    cases o with
    | ok => exact absurd rfl ho
    | beginFail =>
      by_cases hcw : st.closeWorker = true <;>
        simp [sqliteStep, hcl, hpk, hdb, hemp, hcw]
    | insertFail =>
      by_cases hcw : st.closeWorker = true <;>
        simp [sqliteStep, hcl, hpk, hdb, hemp, hcw]
    | commitFail =>
      by_cases hcw : st.closeWorker = true <;>
        simp [sqliteStep, hcl, hpk, hdb, hemp, hcw]

theorem claim_C3_witness :
    (SQOutcome.commitFail ≠ SQOutcome.ok) ∧
    (SQState.mk true [⟨"s", "q", "A"⟩] [] false false false).closed = false ∧
    (sqliteStep (SQState.mk true [⟨"s", "q", "A"⟩] [] false false false)
        (.tickEv SQOutcome.commitFail)).table = ([] : List sqliteResult) ∧
    (sqliteStep (SQState.mk true [⟨"s", "q", "A"⟩] [] false false false)
        (.tickEv SQOutcome.commitFail)).db = false := by
  have h := claim_C3_amended_all_or_nothing
    (SQState.mk true [⟨"s", "q", "A"⟩] [] false false false)
    SQOutcome.commitFail (by decide) (by decide) (by decide)
  exact ⟨by decide, by decide, h.1, h.2 (by decide) (by decide)⟩

/-- C4 counterexample: in the MySQL adapter, `SaveData` itself runs the
transaction and returns the commit error to its caller — with a configured
db, a matched one-pair batch and a failing `Commit`, the call returns the
database error rather than `nil`. -/
theorem claim_C4_counterexample :
    (mySQLSaveData (MySQLState.mk true []) "s" ["q"] ["d"]
        (MySQLOracle.mk true [] false)).1
      = Except.error MySQLErr.dbError := by
  rfl

/-- C4 as amended: in the buffered adapters (fileappend, sqlite) a commit
error is never returned to any `SaveData` caller — `SaveData` returns `nil`
unconditionally (single-record variants), before any commit is attempted;
the failures are only logged and the writer transitions to the not-running
state. In the sqlite adapter the failed transaction additionally leaves the
table unchanged, so its batch is not committed; the fileappend adapter
gives no such batch guarantee (see the C3 analysis: a failed flush can
still append other records of the batch). In the synchronous MySQL
adapter, by contrast, the commit happens inside `SaveData` and its error
is returned to the caller (see the counterexample). -/
theorem claim_C4_amended_commit_error (qn q : String) (d : List Char)
    (dq : String) (st : FAState) (os : List FAWriteOutcome)
    (sqst : SQState) (o : SQOutcome)
    (hcl : st.closed = false)
    (hfail : (flushRecords st.path st.store (sortStable st.buffer) os).2.2 = true)
    (hscl : sqst.closed = false) (hspk : sqst.panicked = false)
    (ho : o ≠ SQOutcome.ok) :
    (fileAppendSaveDataSingle qn q d).1 = Except.ok () ∧
    (sqliteSaveData qn q dq).1 = Except.ok () ∧
    (fileappendStep st (.tickEv os)).running = false ∧
    (sqliteStep sqst (.tickEv o)).table = sqst.table ∧
    (sqst.db = true → sqst.buffer ≠ [] → (sqliteStep sqst (.tickEv o)).db = false) := by
  refine ⟨rfl, rfl, ?_, ?_, ?_⟩
  · rw [fileappendStep, if_neg (by rw [hcl]; exact Bool.false_ne_true),
      fileappendTick]
    by_cases hcw : st.closeWorker = true <;> simp [hfail, hcw]
  · cases o with
    | ok => exact absurd rfl ho
    | beginFail =>
      by_cases hdb : sqst.db = false <;> by_cases hemp : sqst.buffer = [] <;>
        by_cases hcw : sqst.closeWorker = true <;>
        by_cases hdb2 : sqst.db = true <;>
        simp [sqliteStep, hscl, hspk, hdb, hemp, hcw, hdb2]
    | insertFail =>
      by_cases hdb : sqst.db = false <;> by_cases hemp : sqst.buffer = [] <;>
        by_cases hcw : sqst.closeWorker = true <;>
        by_cases hdb2 : sqst.db = true <;>
        simp [sqliteStep, hscl, hspk, hdb, hemp, hcw, hdb2]
    | commitFail =>
      by_cases hdb : sqst.db = false <;> by_cases hemp : sqst.buffer = [] <;>
        by_cases hcw : sqst.closeWorker = true <;>
        by_cases hdb2 : sqst.db = true <;>
        simp [sqliteStep, hscl, hspk, hdb, hemp, hcw, hdb2]
  · intro hdb hemp
    cases o with
    | ok => exact absurd rfl ho
    | beginFail =>
      by_cases hcw : sqst.closeWorker = true <;>
        simp [sqliteStep, hscl, hspk, hdb, hemp, hcw]
    | insertFail =>
      by_cases hcw : sqst.closeWorker = true <;>
        simp [sqliteStep, hscl, hspk, hdb, hemp, hcw]
    | commitFail =>
      by_cases hcw : sqst.closeWorker = true <;>
        simp [sqliteStep, hscl, hspk, hdb, hemp, hcw]

theorem claim_C4_witness :
    (FAState.mk "d" [⟨"s", "q", ['a']⟩] true false FileTree.empty false).closed
        = false ∧
    (flushRecords "d" FileTree.empty
        (sortStable [⟨"s", "q", ['a']⟩]) [FAWriteOutcome.mkdirFail]).2.2 = true ∧
    (SQOutcome.commitFail ≠ SQOutcome.ok) ∧
    (fileAppendSaveDataSingle "s" "q" ['a']).1 = Except.ok () ∧
    (fileappendStep (FAState.mk "d" [⟨"s", "q", ['a']⟩] true false FileTree.empty false)
        (.tickEv [FAWriteOutcome.mkdirFail])).running = false ∧
    (sqliteStep (SQState.mk true [⟨"s", "q", "A"⟩] [] false false false)
        (.tickEv SQOutcome.commitFail)).table = ([] : List sqliteResult) := by
  have h := claim_C4_amended_commit_error "s" "q" ['a'] "A"
    (FAState.mk "d" [⟨"s", "q", ['a']⟩] true false FileTree.empty false)
    [FAWriteOutcome.mkdirFail]
    (SQState.mk true [⟨"s", "q", "A"⟩] [] false false false)
    SQOutcome.commitFail rfl (by decide) rfl rfl (by decide)
  exact ⟨rfl, by decide, by decide, h.1, h.2.2.1, h.2.2.2.1⟩

/-- C5: escaping round trip. For every payload, unescaping the escaped
payload yields the payload with all occurrences of the sentinel codepoint
removed (escape first strips literal sentinels, then maps each newline to
the sentinel; unescape maps each sentinel back to a newline); in
particular, for payloads not containing the sentinel the round trip is
exact. -/
theorem claim_C5_escaping_round_trip (d : List Char) :
    unescapeLine (escapeLine d) = stripSentinel d ∧
    (faSentinel ∉ d → unescapeLine (escapeLine d) = d) := by
  refine ⟨unescapeLine_escapeLine d, fun h => ?_⟩
  rw [unescapeLine_escapeLine d]
  exact stripSentinel_of_not_mem d h

theorem claim_C5_witness :
    (faSentinel ∉ (['a', '\n', 'b'] : List Char)) ∧
    unescapeLine (escapeLine ['a', '\n', 'b']) = ['a', '\n', 'b'] :=
  ⟨by decide, (claim_C5_escaping_round_trip ['a', '\n', 'b']).2 (by decide)⟩

/-- C6: `SaveData` validation. Whenever the itemID list and the payload
list have different lengths, the batch `SaveData` of the file adapter
returns an error with nothing enqueued (the `.error` result carries no
records for the worker), and the MySQL `SaveData` returns an error with the
backing table unchanged, for every database state and oracle. -/
theorem claim_C6_savedata_validation (qn : String) (qIDs : List String)
    (datF : List (List Char)) (datM : List String)
    (st : MySQLState) (o : MySQLOracle)
    (h1 : qIDs.length ≠ datF.length) (h2 : qIDs.length ≠ datM.length) :
    (∃ e, fileAppendSaveDataBatch qn qIDs datF = Except.error e) ∧
    (∃ e, (mySQLSaveData st qn qIDs datM o).1 = Except.error e) ∧
    (mySQLSaveData st qn qIDs datM o).2 = st := by
  refine ⟨⟨_, by rw [fileAppendSaveDataBatch, if_pos h1]⟩, ?_, ?_⟩
  · rw [mySQLSaveData]
    by_cases hc : st.configured = false
    · exact ⟨_, by rw [if_pos hc]⟩
    · rw [if_neg hc]
      by_cases hl : qn.utf8ByteSize > MySQLMaxLengthID
      · exact ⟨_, by rw [if_pos hl]⟩
      · rw [if_neg hl, if_pos h2]
        exact ⟨_, rfl⟩
  · rw [mySQLSaveData]
    by_cases hc : st.configured = false
    · rw [if_pos hc]
    · rw [if_neg hc]
      by_cases hl : qn.utf8ByteSize > MySQLMaxLengthID
      · rw [if_pos hl]
      · rw [if_neg hl, if_pos h2]

theorem claim_C6_witness :
    ((["q1", "q2"] : List String).length ≠ ([['a']] : List (List Char)).length) ∧
    ((["q1", "q2"] : List String).length ≠ (["d1"] : List String).length) ∧
    (∃ e, fileAppendSaveDataBatch "s" ["q1", "q2"] [['a']] = Except.error e) ∧
    (mySQLSaveData (MySQLState.mk true []) "s" ["q1", "q2"] ["d1"]
        (MySQLOracle.mk true [] true)).2 = MySQLState.mk true [] := by
  have h := claim_C6_savedata_validation "s" ["q1", "q2"] [['a']] ["d1"]
    (MySQLState.mk true []) (MySQLOracle.mk true [] true) (by decide) (by decide)
  exact ⟨by decide, by decide, h.1, h.2.2⟩

/-- C7 counterexample: a running file-append writer whose reconfiguration
fails (the `MkdirAll` of the new target errors) does *not* become
not-running: `running` stays `true`, the path is switched to the failed
target, and the writer keeps accepting records into its buffer. -/
theorem claim_C7_counterexample :
    (faRun [FAEvent.newPath "a" true, FAEvent.newPath "b" false]).running = true ∧
    (faRun [FAEvent.newPath "a" true, FAEvent.newPath "b" false]).path = "b" ∧
    (faRun [FAEvent.newPath "a" true, FAEvent.newPath "b" false,
        FAEvent.dataEv ⟨"s", "q", ['a']⟩]).buffer = [⟨"s", "q", ['a']⟩] := by
  refine ⟨by decide, by decide, by decide⟩

/-- C7 as amended: on a failed reconfiguration the error is logged and no
panic or retry occurs; the sqlite worker becomes not-running (`db = nil`,
keeping its buffer), while the file-append worker merely records the new
path and leaves its `running` flag unchanged — a writer not yet running
stays not-running, but a previously running writer remains running. -/
theorem claim_C7_amended_reconfigure_failure (p : String)
    (st : FAState) (sqst : SQState)
    (hcl : st.closed = false) (hcw : st.closeWorker = false)
    (hscl : sqst.closed = false) (hscw : sqst.closeWorker = false)
    (hspk : sqst.panicked = false) :
    (fileappendStep st (.newPath p false)).running = st.running ∧
    (fileappendStep st (.newPath p false)).path = p ∧
    (fileappendStep st (.newPath p false)).buffer = st.buffer ∧
    (sqliteStep sqst (.newPath false)).db = false ∧
    (sqliteStep sqst (.newPath false)).buffer = sqst.buffer := by
  refine ⟨?_, ?_, ?_, ?_, ?_⟩ <;>
    simp [fileappendStep, sqliteStep, hcl, hcw, hscl, hscw, hspk]

theorem claim_C7_witness :
    (FAState.mk "a" [] true false FileTree.empty false).closed = false ∧
    (FAState.mk "a" [] true false FileTree.empty false).closeWorker = false ∧
    (fileappendStep (FAState.mk "a" [] true false FileTree.empty false)
        (.newPath "b" false)).running = (FAState.mk "a" [] true false FileTree.empty false).running ∧
    (sqliteStep (SQState.mk true [⟨"s", "q", "A"⟩] [] false false false)
        (.newPath false)).db = false :=
  ⟨rfl, rfl,
    (claim_C7_amended_reconfigure_failure "b"
      (FAState.mk "a" [] true false FileTree.empty false)
      (SQState.mk true [⟨"s", "q", "A"⟩] [] false false false) rfl rfl rfl rfl rfl).1,
    (claim_C7_amended_reconfigure_failure "b"
      (FAState.mk "a" [] true false FileTree.empty false)
      (SQState.mk true [⟨"s", "q", "A"⟩] [] false false false) rfl rfl rfl rfl rfl).2.2.2.1⟩

/-- C8 counterexample: after the shutdown signal has been received
(`closeWorker` is set, draining has begun), a record received by a running
worker is *not* dropped: it is appended to the buffer, committed by the
final flush, and visible via `GetData` after the worker has closed. -/
theorem claim_C8_counterexample :
    (faRun [FAEvent.newPath "d" true, FAEvent.closeSig]).closeWorker = true ∧
    (faRun [FAEvent.newPath "d" true, FAEvent.closeSig,
        FAEvent.dataEv ⟨"s", "q", ['a']⟩]).buffer = [⟨"s", "q", ['a']⟩] ∧
    (faRun [FAEvent.newPath "d" true, FAEvent.closeSig,
        FAEvent.dataEv ⟨"s", "q", ['a']⟩, FAEvent.tickEv []]).closed = true ∧
    fileAppendGetData
        (faRun [FAEvent.newPath "d" true, FAEvent.closeSig,
          FAEvent.dataEv ⟨"s", "q", ['a']⟩, FAEvent.tickEv []]) "s" "q"
      = [['a']] := by
  refine ⟨by decide, by decide, by decide, by decide⟩

/-- C8 as amended: once draining has begun (`closeWorker` set), new-path
reconfiguration requests are ignored, but data records are still accepted
while the writer is running (in both the file-append and the sqlite
worker) and take part in the final flush; records are logged and dropped
only when the writer is not running. -/
theorem claim_C8_amended_drain (p : String) (ok : Bool)
    (r : fileAppendResult) (sr : sqliteResult)
    (st : FAState) (sqst : SQState)
    (hcl : st.closed = false) (hcw : st.closeWorker = true)
    (hrun : st.running = true)
    (hscl : sqst.closed = false) (hscw : sqst.closeWorker = true)
    (hspk : sqst.panicked = false) (hsdb : sqst.db = true) :
    fileappendStep st (.newPath p ok) = st ∧
    (fileappendStep st (.dataEv r)).buffer = st.buffer ++ [r] ∧
    sqliteStep sqst (.newPath ok) = sqst ∧
    (sqliteStep sqst (.dataEv sr)).buffer = sqst.buffer ++ [sr] := by
  refine ⟨?_, ?_, ?_, ?_⟩ <;>
    simp [fileappendStep, sqliteStep, hcl, hcw, hrun, hscl, hscw, hspk, hsdb]

theorem claim_C8_witness :
    (FAState.mk "d" [] true true FileTree.empty false).closed = false ∧
    (FAState.mk "d" [] true true FileTree.empty false).closeWorker = true ∧
    (fileappendStep (FAState.mk "d" [] true true FileTree.empty false)
        (.dataEv ⟨"s", "q", ['a']⟩)).buffer = [(⟨"s", "q", ['a']⟩ : fileAppendResult)] ∧
    (sqliteStep (SQState.mk true [] [] true false false)
        (.dataEv ⟨"s", "q", "A"⟩)).buffer = [(⟨"s", "q", "A"⟩ : sqliteResult)] := by
  have h := claim_C8_amended_drain "x" true ⟨"s", "q", ['a']⟩ ⟨"s", "q", "A"⟩
    (FAState.mk "d" [] true true FileTree.empty false)
    (SQState.mk true [] [] true false false) rfl rfl rfl rfl rfl rfl rfl
  exact ⟨rfl, rfl, by rw [h.2.1]; rfl, by rw [h.2.2.2]; rfl⟩

/-- C9: in the batch `GetData` of the MySQL adapter the oversized-key guard
`len(questionID) > MySQLMaxLengthID` is applied to the *number* of requested
item IDs (the length of the `[]string`), not to the byte length of each ID:
with a configured db and a short collection ID, every request for more than
150 item IDs fails with the ID-too-long error regardless of the IDs
themselves, while a request whose individual IDs are arbitrarily long (but
with at most 150 of them) passes the guards and succeeds. -/
theorem claim_C9_getdata_guard (st : MySQLState) (qn : String)
    (qIDs : List String)
    (hconf : st.configured = true)
    (hqn : qn.utf8ByteSize ≤ MySQLMaxLengthID) :
    (qIDs.length > MySQLMaxLengthID →
      mySQLGetData st qn qIDs true = Except.error MySQLErr.idTooLong) ∧
    (qIDs.length ≤ MySQLMaxLengthID →
      mySQLGetData st qn qIDs true
        = Except.ok (qIDs.map fun q => sqlSelect st.table qn q)) := by
  constructor
  · intro h
    rw [mySQLGetData, if_neg (by rw [hconf]; simp),
      if_neg (Nat.not_lt.mpr hqn), if_pos h]
  · intro h
    rw [mySQLGetData, if_neg (by rw [hconf]; simp),
      if_neg (Nat.not_lt.mpr hqn), if_neg (Nat.not_lt.mpr h),
      if_neg (by simp)]

set_option maxRecDepth 4000 in
theorem claim_C9_witness :
    (MySQLState.mk true []).configured = true ∧
    ("s" : String).utf8ByteSize ≤ MySQLMaxLengthID ∧
    (List.replicate 151 "q").length > MySQLMaxLengthID ∧
    ([String.mk (List.replicate 151 'a')].length ≤ MySQLMaxLengthID) ∧
    mySQLGetData (MySQLState.mk true []) "s" (List.replicate 151 "q") true
      = Except.error MySQLErr.idTooLong ∧
    mySQLGetData (MySQLState.mk true []) "s" [String.mk (List.replicate 151 'a')] true
      = Except.ok ([String.mk (List.replicate 151 'a')].map
          fun q => sqlSelect ([] : List sqliteResult) "s" q) := by
  refine ⟨rfl, by decide, by decide, by decide, ?_, ?_⟩
  · exact (claim_C9_getdata_guard (MySQLState.mk true []) "s"
      (List.replicate 151 "q") rfl (by decide)).1 (by decide)
  · exact (claim_C9_getdata_guard (MySQLState.mk true []) "s"
      [String.mk (List.replicate 151 'a')] rfl (by decide)).2 (by decide)

/-- C10: the file adapter's single-key `GetData` returns the empty sequence
exactly when the backing file does not exist; whenever the file exists the
result has at least one element — in particular an existing empty file
yields the one-element sequence containing the empty string. -/
theorem claim_C10_empty_iff_missing (co : Option (List Char)) :
    (readKey co = [] ↔ co = none) ∧ readKey (some []) = [[]] := by
  refine ⟨⟨?_, ?_⟩, rfl⟩
  · intro h
    cases co with
    | none => rfl
    | some b =>
      exfalso
      rw [readKey, parseContent] at h
      exact splitNl_ne_nil _ (List.map_eq_nil_iff.mp h)
  · intro h
    rw [h]
    rfl

theorem claim_C10_witness :
    (readKey (some ['x']) = [] ↔ (some ['x'] : Option (List Char)) = none) ∧
    readKey (some []) = [[]] ∧ readKey none = [] :=
  ⟨(claim_C10_empty_iff_missing (some ['x'])).1,
    (claim_C10_empty_iff_missing (some [])).2,
    (claim_C10_empty_iff_missing none).1.mpr rfl⟩
